import Mathlib

set_option maxHeartbeats 1000000

/-!
Verification development for the AIGC docx analysis/patching service.

Strings from the TypeScript sources are modelled as `List Char`.
JS `String.prototype.replace` with a global literal pattern is modelled as
leftmost, non-overlapping, single-pass replacement (`replaceAll` below);
the replacement text is emitted, never rescanned, exactly as in JS.
-/

namespace Aigc

/-- Boolean test: `pat` occurs as a prefix of `l`. -/
def isPre : List Char → List Char → Bool
  | [], _ => true
  | _ :: _, [] => false
  | p :: ps, c :: cs => if p = c then isPre ps cs else false

/-- Worker for `replaceAll`.  The pattern is `p :: ps` (never empty).  In
state `k + 1` the next char belongs to an already-matched pattern
occurrence and is dropped; in state `0` we test for a match at the head:
on a match the replacement is emitted and the rest of the pattern is
scheduled to be dropped, otherwise the head char is copied. -/
def replaceAllGo (p : Char) (ps rep : List Char) : ℕ → List Char → List Char
  | _, [] => []
  | k + 1, _ :: t => replaceAllGo p ps rep k t
  | 0, c :: t =>
    if isPre (p :: ps) (c :: t) then rep ++ replaceAllGo p ps rep ps.length t
    else c :: replaceAllGo p ps rep 0 t

/-- Leftmost, non-overlapping, global replacement of the literal pattern
`p :: ps` by `rep`: the model of `input.replace(/pat/g, rep)` for a
literal pattern. -/
def replaceAll (p : Char) (ps rep l : List Char) : List Char :=
  replaceAllGo p ps rep 0 l

/-- The five XML entities (as raw character lists). -/
def ampEnt : List Char := ['&', 'a', 'm', 'p', ';']

def ltEnt : List Char := ['&', 'l', 't', ';']

def gtEnt : List Char := ['&', 'g', 't', ';']

def quotEnt : List Char := ['&', 'q', 'u', 'o', 't', ';']

def aposEnt : List Char := ['&', 'a', 'p', 'o', 's', ';']

/-- `encodeXmlText` from `src/docx/xmlText.ts`: sequentially replaces
`&`, `<`, `>`, `"`, `'` by the five XML entities (in that order). -/
def encodeXmlText (s : List Char) : List Char :=
  replaceAll '\'' [] aposEnt
    (replaceAll '"' [] quotEnt
      (replaceAll '>' [] gtEnt
        (replaceAll '<' [] ltEnt
          (replaceAll '&' [] ampEnt s))))

/-- `decodeXmlText` from `src/docx/xmlText.ts`: sequentially replaces the
five XML entities `&lt; &gt; &quot; &apos; &amp;` (in that order) by the
characters they stand for. -/
def decodeXmlText (s : List Char) : List Char :=
  replaceAll '&' ['a', 'm', 'p', ';'] ['&']
    (replaceAll '&' ['a', 'p', 'o', 's', ';'] ['\'']
      (replaceAll '&' ['q', 'u', 'o', 't', ';'] ['"']
        (replaceAll '&' ['g', 't', ';'] ['>']
          (replaceAll '&' ['l', 't', ';'] ['<'] s))))

/-- Apply a character-to-string function to every char and concatenate:
the character-wise normal form of the encoder. -/
def cmap (g : Char → List Char) : List Char → List Char
  | [] => []
  | c :: t => g c ++ cmap g t

/-- Character-wise description of the composite encoder. -/
def encChar (c : Char) : List Char :=
  if c = '&' then ampEnt
  else if c = '<' then ltEnt
  else if c = '>' then gtEnt
  else if c = '"' then quotEnt
  else if c = '\'' then aposEnt
  else [c]

/-- Image of a character after the first encoder stage (`&`). -/
def encStage1 (c : Char) : List Char :=
  if c = '&' then ampEnt else [c]

/-- Image of a character after the first two encoder stages (`&`, `<`). -/
def encStage2 (c : Char) : List Char :=
  if c = '&' then ampEnt else if c = '<' then ltEnt else [c]

/-- Image of a character after the first three encoder stages. -/
def encStage3 (c : Char) : List Char :=
  if c = '&' then ampEnt else if c = '<' then ltEnt
  else if c = '>' then gtEnt else [c]

/-- Image of a character after the first four encoder stages. -/
def encStage4 (c : Char) : List Char :=
  if c = '&' then ampEnt else if c = '<' then ltEnt
  else if c = '>' then gtEnt else if c = '"' then quotEnt else [c]

/-- Image of an encoded character after the first decoder stage (`&lt;`). -/
def decStage1 (c : Char) : List Char :=
  if c = '&' then ampEnt
  else if c = '<' then ['<']
  else if c = '>' then gtEnt
  else if c = '"' then quotEnt
  else if c = '\'' then aposEnt
  else [c]

/-- Image after the first two decoder stages (`&lt;`, `&gt;`). -/
def decStage2 (c : Char) : List Char :=
  if c = '&' then ampEnt
  else if c = '<' then ['<']
  else if c = '>' then ['>']
  else if c = '"' then quotEnt
  else if c = '\'' then aposEnt
  else [c]

/-- Image after the first three decoder stages. -/
def decStage3 (c : Char) : List Char :=
  if c = '&' then ampEnt
  else if c = '<' then ['<']
  else if c = '>' then ['>']
  else if c = '"' then ['"']
  else if c = '\'' then aposEnt
  else [c]

/-- Image after the first four decoder stages. -/
def decStage4 (c : Char) : List Char :=
  if c = '&' then ampEnt
  else if c = '<' then ['<']
  else if c = '>' then ['>']
  else if c = '"' then ['"']
  else if c = '\'' then ['\'']
  else [c]

/-! ### Document XML splitting (src/docx/documentXml.ts)

`word/document.xml` is scanned with the regexes
`/<w:p\b[\s\S]*?<\/w:p>/g` (paragraph slicing), `/<w:tc\b/g` and
`/<\/w:tc>/g` (table-cell depth), and
`/<w:t\b[^>]*>([\s\S]*?)<\/w:t>|<w:tab\s*\/>|<w:br\b[^>]*\/>|<w:cr\s*\/>/g`
(text extraction).  They are modelled as explicit left-to-right scanners
with the same leftmost, lazy, non-overlapping behaviour. -/

/-- JS regex word character (`\w`, i.e. `[A-Za-z0-9_]`). -/
def isWordChar (c : Char) : Bool :=
  ('a' ≤ c && c ≤ 'z') || ('A' ≤ c && c ≤ 'Z') ||
    ('0' ≤ c && c ≤ '9') || c = '_'

/-- Word boundary right after a tag-name literal: holds at end of input or
before a non-word character. -/
def bdryAt : List Char → Bool
  | [] => true
  | c :: _ => !isWordChar c

/-- JS regex whitespace class `\s` (also the character class removed by
`String.prototype.trim`). -/
def isJsSpace (c : Char) : Bool :=
  c = ' ' || c = '\t' || c = '\n' || c = '\r' ||
  c = Char.ofNat 11 || c = Char.ofNat 12 ||
  c = Char.ofNat 0x00a0 || c = Char.ofNat 0x1680 ||
  (Char.ofNat 0x2000 ≤ c && c ≤ Char.ofNat 0x200a) ||
  c = Char.ofNat 0x2028 || c = Char.ofNat 0x2029 ||
  c = Char.ofNat 0x202f || c = Char.ofNat 0x205f ||
  c = Char.ofNat 0x3000 || c = Char.ofNat 0xfeff

/-- First occurrence of the literal pattern `p :: ps`: returns the part
before the occurrence and the part after it. -/
def findSplit (p : Char) (ps : List Char) : List Char →
    Option (List Char × List Char)
  | [] => none
  | c :: t =>
    if isPre (p :: ps) (c :: t) then some ([], t.drop ps.length)
    else (findSplit p ps t).map fun pr => (c :: pr.1, pr.2)

/-- Does the literal pattern `p :: ps` occur anywhere in `l`? -/
def hasSubstr (p : Char) (ps : List Char) (l : List Char) : Bool :=
  (findSplit p ps l).isSome

/-- Split at the first `>` character (the `[^>]*>` idiom): returns the
`>`-free part before it and the part after it. -/
def splitAtGt : List Char → Option (List Char × List Char)
  | [] => none
  | c :: t =>
    if c = '>' then some ([], t)
    else (splitAtGt t).map fun pr => (c :: pr.1, pr.2)

def wpOpen : List Char := ['<', 'w', ':', 'p']

def wpClose : List Char := ['<', '/', 'w', ':', 'p', '>']

/-- A position where the paragraph regex `<w:p\b…` can start. -/
def paraStart (l : List Char) : Bool :=
  isPre wpOpen l && bdryAt (l.drop 4)

/-- Leftmost position satisfying `paraStart`: the prefix before it and the
suffix starting at it. -/
def findParaOpen : List Char → Option (List Char × List Char)
  | [] => none
  | c :: t =>
    if paraStart (c :: t) then some ([], c :: t)
    else (findParaOpen t).map fun pr => (c :: pr.1, pr.2)

/-- Leftmost match of `/<w:p\b[\s\S]*?<\/w:p>/`: returns
(prefix, whole match, rest).  Lazy `[\s\S]*?` means the match ends at the
first `</w:p>` after the opening; if no close follows the first candidate
opening, no later candidate can have one either, so the whole scan fails,
exactly as the JS `exec` loop does. -/
def findPara (l : List Char) : Option (List Char × List Char × List Char) :=
  match findParaOpen l with
  | none => none
  | some (pre, suf) =>
    match findSplit '<' ['/', 'w', ':', 'p', '>'] (suf.drop 4) with
    | none => none
    | some (body, rest) => some (pre, wpOpen ++ body ++ wpClose, rest)

/-- A position where `/<w:tc\b/` matches. -/
def tcOpenAt (l : List Char) : Bool :=
  isPre ['<', 'w', ':', 't', 'c'] l && bdryAt (l.drop 5)

/-- A position where `/<\/w:tc>/` matches. -/
def tcCloseAt (l : List Char) : Bool :=
  isPre ['<', '/', 'w', ':', 't', 'c', '>'] l

def countTcOpens : List Char → ℕ
  | [] => 0
  | c :: t => (if tcOpenAt (c :: t) then 1 else 0) + countTcOpens t

def countTcCloses : List Char → ℕ
  | [] => 0
  | c :: t => (if tcCloseAt (c :: t) then 1 else 0) + countTcCloses t

/-- `updateTableCellDepth` from `src/docx/documentXml.ts`: the two regex
loops first add 1 per `<w:tc\b` occurrence, then apply
`tcDepth = Math.max(0, tcDepth - 1)` once per `</w:tc>` occurrence (all
opens are counted before any close is applied; on naturals the per-close
`Math.max(0, · - 1)` is truncated predecessor). -/
def updateTableCellDepth (d : ℕ) (chunk : List Char) : ℕ :=
  (fun x => x - 1)^[countTcCloses chunk] (d + countTcOpens chunk)

/-- Modelled from the claim wording of C6: the same counter updated once
per tag, in document order (increment at each open, floored decrement at
each close). -/
def docOrderTableCellDepth : ℕ → List Char → ℕ
  | d, [] => d
  | d, c :: t =>
    if tcOpenAt (c :: t) then docOrderTableCellDepth (d + 1) t
    else if tcCloseAt (c :: t) then docOrderTableCellDepth (d - 1) t
    else docOrderTableCellDepth d t

inductive DocxParagraphKind where
  | paragraph
  | tableCellParagraph
deriving DecidableEq, Repr

/-- One `<w:p>…</w:p>` block.  The JS `id` is the string `"p-<n>"`; only
its numeric part `n` is modelled (it always equals `index`). -/
structure DocxParagraph where
  id : ℕ
  index : ℕ
  kind : DocxParagraphKind
  text : List Char
  xml : List Char
deriving DecidableEq, Repr

inductive DocumentXmlPart where
  | chunk (xml : List Char)
  | paragraph (p : DocxParagraph)
deriving DecidableEq, Repr

/-- Attempt to match `<w:t\b([^>]*)>([\s\S]*?)<\/w:t>` at the head:
returns (attrs, content, rest). -/
def parseWT (l : List Char) : Option (List Char × List Char × List Char) :=
  if isPre ['<', 'w', ':', 't'] l && bdryAt (l.drop 4) then
    match splitAtGt (l.drop 4) with
    | none => none
    | some (attrs, afterGt) =>
      match findSplit '<' ['/', 'w', ':', 't', '>'] afterGt with
      | none => none
      | some (content, rest) => some (attrs, content, rest)
  else none

/-- Attempt to match `<w:tab\s*\/>` at the head: returns the rest. -/
def parseTab (l : List Char) : Option (List Char) :=
  if isPre ['<', 'w', ':', 't', 'a', 'b'] l then
    let r := (l.drop 6).dropWhile isJsSpace
    if isPre ['/', '>'] r then some (r.drop 2) else none
  else none

/-- Attempt to match `<w:br\b[^>]*\/>` at the head: returns the rest
(the char just before the first `>` must be `/`). -/
def parseBr (l : List Char) : Option (List Char) :=
  if isPre ['<', 'w', ':', 'b', 'r'] l && bdryAt (l.drop 5) then
    match splitAtGt (l.drop 5) with
    | none => none
    | some (b, rest) =>
      if b ≠ [] ∧ b.getLast? = some '/' then some rest else none
  else none

/-- Attempt to match `<w:cr\s*\/>` at the head: returns the rest. -/
def parseCr (l : List Char) : Option (List Char) :=
  if isPre ['<', 'w', ':', 'c', 'r'] l then
    let r := (l.drop 5).dropWhile isJsSpace
    if isPre ['/', '>'] r then some (r.drop 2) else none
  else none

/-- The token scan of `extractParagraphText`: at each position the four
alternatives are tried in regex order; a `<w:t>` emits its decoded
content, `<w:tab/>` a tab, `<w:br/>`/`<w:cr/>` a newline.  Fuel is an
upper bound on the scanned length (each step consumes at least one
character, so `length + 1` fuel always suffices). -/
def extractTextGo : ℕ → List Char → List Char
  | 0, _ => []
  | _ + 1, [] => []
  | fuel + 1, c :: t =>
    match parseWT (c :: t) with
    | some (_, content, rest) =>
      decodeXmlText content ++ extractTextGo fuel rest
    | none =>
      match parseTab (c :: t) with
      | some rest => '\t' :: extractTextGo fuel rest
      | none =>
        match parseBr (c :: t) with
        | some rest => '\n' :: extractTextGo fuel rest
        | none =>
          match parseCr (c :: t) with
          | some rest => '\n' :: extractTextGo fuel rest
          | none => extractTextGo fuel t

/-- Trailing `/[ \s]+$/` trim. -/
def trimTrailingWs (l : List Char) : List Char :=
  (l.reverse.dropWhile fun c => c = Char.ofNat 0x00a0 || isJsSpace c).reverse

/-- `extractParagraphText` from `src/docx/documentXml.ts`. -/
def extractParagraphText (paragraphXml : List Char) : List Char :=
  trimTrailingWs (extractTextGo (paragraphXml.length + 1) paragraphXml)

/-- The main slicing loop of `splitDocumentXmlIntoParts`: repeatedly take
the next paragraph match, pushing the in-between chunk (when non-empty,
after updating the table-cell depth with it), classifying the paragraph
from the depth at its start, then updating the depth with the paragraph
fragment itself. -/
def splitGo : ℕ → List Char → ℕ → ℕ → List DocumentXmlPart
  | 0, _, _, _ => []
  | fuel + 1, l, paraIndex, tcDepth =>
    match findPara l with
    | none => if l = [] then [] else [.chunk l]
    | some (pre, para, rest) =>
      let d1 := if pre = [] then tcDepth else updateTableCellDepth tcDepth pre
      let kind := if 0 < d1 then DocxParagraphKind.tableCellParagraph
        else DocxParagraphKind.paragraph
      let p : DocxParagraph :=
        ⟨paraIndex, paraIndex, kind, extractParagraphText para, para⟩
      let d2 := updateTableCellDepth d1 para
      (if pre = [] then [] else [.chunk pre]) ++
        (.paragraph p :: splitGo fuel rest (paraIndex + 1) d2)

/-- `splitDocumentXmlIntoParts` from `src/docx/documentXml.ts` (its
`parts` result; the `paragraphs` array is `paragraphsOf` below). -/
def splitDocumentXmlIntoParts (l : List Char) : List DocumentXmlPart :=
  splitGo (l.length + 1) l 0 0

/-- The `paragraphs` array: the paragraph records of the parts, in order. -/
def paragraphsOf (parts : List DocumentXmlPart) : List DocxParagraph :=
  parts.filterMap fun
    | .paragraph p => some p
    | .chunk _ => none

/-- Reassembly: `parts.map(p => p.type === "chunk" ? p.xml : p.paragraph.xml).join("")`. -/
def joinParts : List DocumentXmlPart → List Char
  | [] => []
  | .chunk x :: t => x ++ joinParts t
  | .paragraph p :: t => p.xml ++ joinParts t

/-! ### Patching (src/docx/patcher.ts)

`patchDocxParagraphs` is modelled on the `word/document.xml` text stream;
the JSZip container unpack/repack around it is I/O and is elided.  JS
`String.prototype.replace` expands the special patterns `$$`, `$&`,
`` $` ``, `$'` (and `$1` for the one-group regex patterns) inside the
replacement string; `expandTpl` reproduces that documented behaviour. -/

/-- Expansion of a JS replacement template: `g1` is the first capture
group when the pattern was a regex (`none` for string patterns, where
`$1` stays literal), `matched`/`before`/`after` are the matched substring
and the parts of the subject around it. -/
def expandTpl (g1 : Option (List Char)) (matched before after : List Char) :
    List Char → List Char
  | [] => []
  | '$' :: '$' :: t => '$' :: expandTpl g1 matched before after t
  | '$' :: '&' :: t => matched ++ expandTpl g1 matched before after t
  | '$' :: '\'' :: t => after ++ expandTpl g1 matched before after t
  | '$' :: c :: t =>
    if c = Char.ofNat 96 then before ++ expandTpl g1 matched before after t
    else if c = '1' then
      match g1 with
      | some g => g ++ expandTpl g1 matched before after t
      | none => '$' :: c :: expandTpl g1 matched before after t
    else '$' :: c :: expandTpl g1 matched before after t
  | c :: t => c :: expandTpl g1 matched before after t

/-- `subject.replace(pat, tpl)` for a literal string pattern `p :: ps`:
replaces the first occurrence only, with template expansion. -/
def replaceStrOnce (p : Char) (ps : List Char) (tpl : List Char)
    (l : List Char) : List Char :=
  match findSplit p ps l with
  | none => l
  | some (before, after) =>
    before ++ expandTpl none (p :: ps) before after tpl ++ after

/-- One `<w:t…>…</w:t>` match of the rewrite regex. -/
structure WtMatch where
  attrs : List Char
  content : List Char
deriving DecidableEq, Repr

/-- The full matched text `m[0]` of a `<w:t>` match. -/
def wtFull (m : WtMatch) : List Char :=
  ['<', 'w', ':', 't'] ++ m.attrs ++ ['>'] ++ m.content ++
    ['<', '/', 'w', ':', 't', '>']

/-- `Array.from(xml.matchAll(tRe))`: all non-overlapping `<w:t>` matches,
left to right. -/
def wtMatchesGo : ℕ → List Char → List WtMatch
  | 0, _ => []
  | _ + 1, [] => []
  | fuel + 1, c :: t =>
    match parseWT (c :: t) with
    | some (attrs, content, rest) => ⟨attrs, content⟩ :: wtMatchesGo fuel rest
    | none => wtMatchesGo fuel t

def wtMatches (l : List Char) : List WtMatch :=
  wtMatchesGo (l.length + 1) l

/-- Attempt to match `<w:pPr\b[\s\S]*?<\/w:pPr>` at the head: returns
(whole match, rest). -/
def parsePPr (l : List Char) : Option (List Char × List Char) :=
  if isPre ['<', 'w', ':', 'p', 'P', 'r'] l && bdryAt (l.drop 6) then
    match findSplit '<' ['/', 'w', ':', 'p', 'P', 'r', '>'] (l.drop 6) with
    | none => none
    | some (body, rest) =>
      some (['<', 'w', ':', 'p', 'P', 'r'] ++ body ++
        ['<', '/', 'w', ':', 'p', 'P', 'r', '>'], rest)
  else none

/-- Attempt to match `<w:p\b[^>]*>` at the head: returns
(whole match, rest). -/
def parseWpOpenTag (l : List Char) : Option (List Char × List Char) :=
  if paraStart l then
    match splitAtGt (l.drop 4) with
    | none => none
    | some (attrs, rest) => some (wpOpen ++ attrs ++ ['>'], rest)
  else none

/-- Leftmost match of a head-parser: returns (prefix, match, rest). -/
def findFirstBy (parse : List Char → Option (List Char × List Char)) :
    ℕ → List Char → Option (List Char × List Char × List Char)
  | 0, _ => none
  | _ + 1, [] => none
  | fuel + 1, c :: t =>
    match parse (c :: t) with
    | some (matched, rest) => some ([], matched, rest)
    | none => (findFirstBy parse fuel t).map fun pr => (c :: pr.1, pr.2)

/-- `subject.replace(regex, tpl)` for a (non-global) regex given by a
head-parser: replaces the first match, with template expansion
(`$1` is the whole match for the two one-group patterns used here). -/
def replaceReBy (parse : List Char → Option (List Char × List Char))
    (tpl : List Char) (l : List Char) : List Char :=
  match findFirstBy parse (l.length + 1) l with
  | none => l
  | some (before, matched, rest) =>
    before ++ expandTpl (some matched) matched before rest tpl ++ rest

/-- `replaceParagraphTextInXml` from `src/docx/patcher.ts`. -/
def replaceParagraphTextInXml (paragraphXml : List Char)
    (nextTextRaw : List Char) : List Char :=
  let nextText := encodeXmlText nextTextRaw
  match wtMatches paragraphXml with
  | [] =>
    let run := "<w:r><w:t xml:space=\"preserve\">".toList ++ nextText ++
      "</w:t></w:r>".toList
    let tpl := "$1".toList ++ run
    if (findFirstBy parsePPr (paragraphXml.length + 1) paragraphXml).isSome
    then replaceReBy parsePPr tpl paragraphXml
    else replaceReBy parseWpOpenTag tpl paragraphXml
  | first :: rest =>
    let firstTag :=
      if hasSubstr 'x' "ml:space=".toList first.attrs then
        ['<', 'w', ':', 't'] ++ first.attrs ++ ['>']
      else
        ['<', 'w', ':', 't'] ++ first.attrs ++
          " xml:space=\"preserve\">".toList
    let out1 := replaceStrOnce '<' (wtFull first).tail
      (firstTag ++ nextText ++ "</w:t>".toList) paragraphXml
    rest.foldl
      (fun out m => replaceStrOnce '<' (wtFull m).tail
        (['<', 'w', ':', 't'] ++ m.attrs ++ "></w:t>".toList) out)
      out1

/-- A replacement map entry: numeric part of the block id `"p-<n>"`,
and the raw replacement text. -/
def lookupRepl : List (ℕ × List Char) → ℕ → Option (List Char)
  | [], _ => none
  | (k, v) :: t, n => if k = n then some v else lookupRepl t n

/-- The `parts.map(...)` step of `patchDocxParagraphs`: paragraphs whose
id is in the map get their raw fragment rewritten, everything else is
returned unchanged. -/
def applyReplacements (repl : List (ℕ × List Char))
    (parts : List DocumentXmlPart) : List DocumentXmlPart :=
  parts.map fun
    | .chunk x => .chunk x
    | .paragraph p =>
      match lookupRepl repl p.id with
      | none => .paragraph p
      | some txt =>
        .paragraph { p with xml := replaceParagraphTextInXml p.xml txt }

/-- `patchDocxParagraphs` on the `word/document.xml` stream: split,
rewrite mapped paragraphs, reassemble. -/
def patchDocxParagraphs (documentXml : List Char)
    (replacements : List (ℕ × List Char)) : List Char :=
  joinParts (applyReplacements replacements
    (splitDocumentXmlIntoParts documentXml))

/-- Segments (chunk xmls and paragraph fragments) strictly before the
`j`-th paragraph of a parts list. -/
def segsBeforePara : List DocumentXmlPart → ℕ → List (List Char)
  | [], _ => []
  | .chunk x :: t, j => x :: segsBeforePara t j
  | .paragraph _ :: _, 0 => []
  | .paragraph p :: t, j + 1 => p.xml :: segsBeforePara t j

/-- A document whose single inter-block chunk closes a table cell before
opening one: the two chunk-scan orders disagree on the depth at the
block start. -/
def tcOrderDoc : List Char := "x</w:tc><w:tc>y<w:p></w:p>".toList

/-- A paragraph inside an (unclosed) table cell. -/
def tcWitnessDoc : List Char := "<w:tc><w:p></w:p>".toList

/-- A two-paragraph document whose first paragraph has a `<w:t>` node
with attribute text containing the JS replacement-template pattern
written dollar-then-apostrophe.  The blanking step
`out.replace(m[0], "<w:t" + attr + "></w:t>")` then expands that
pattern to the portion of the paragraph following the match — which
ends with the paragraph close tag — so the rewritten fragment gains an
internal close tag. -/
def c5Doc : List Char :=
  "<w:p><w:t>a</w:t><w:t $'>b</w:t><w:p x></w:p><w:p><w:t>c</w:t></w:p>".toList

/-- The replacement map of the C5 failing input: only block `p-0`. -/
def c5Repl : List (ℕ × List Char) := [(0, "NEW".toList)]

/-- The patched `document.xml` stream of the C5 failing input. -/
def c5Patched : List Char := patchDocxParagraphs c5Doc c5Repl

/-! ### Analysis model (src/analysis/textUtils.ts, features.ts, detector.ts)

JS numbers are modelled as `ℚ` (ratios, variances) and `ℤ`/`ℕ` (scores,
counts); every number actually produced is small enough that binary64
arithmetic is exact except for divisions, whose rational value is taken.
External inputs that are not part of the sources are environment
parameters (`AnalysisEnv`): the `nodejieba` tokenizer, the lexicon string
lists and regex-pattern families of `lexicons.ts` (a module absent from
the sources), the two citation-marker regexes, and `Math.log2`. -/

/-- `clamp` from `src/analysis/textUtils.ts`, at type `ℚ`. -/
def clampQ (n lo hi : ℚ) : ℚ := min hi (max lo n)

/-- `clamp` from `src/analysis/textUtils.ts`, at type `ℤ`. -/
def clampZ (n lo hi : ℤ) : ℤ := min hi (max lo n)

/-- JS `Math.round`: round half toward positive infinity. -/
def jsRound (q : ℚ) : ℤ := ⌊q + 1 / 2⌋

/-- `mean` from `src/analysis/textUtils.ts`. -/
def mean (xs : List ℚ) : ℚ := if xs.length = 0 then 0 else xs.sum / xs.length

/-- `variance` from `src/analysis/textUtils.ts` (population variance). -/
def variance (xs : List ℚ) : ℚ :=
  if xs.length ≤ 1 then 0
  else ((xs.map fun x => (x - mean xs) ^ 2).sum) / xs.length

/-- The `[ \t]+ → " "` collapse of `normalizeText` (flag = previous
output char was a collapsed space). -/
def collapseSpacesGo (prevSpace : Bool) : List Char → List Char
  | [] => []
  | c :: t =>
    if c = ' ' || c = '\t' then
      if prevSpace then collapseSpacesGo true t
      else ' ' :: collapseSpacesGo true t
    else c :: collapseSpacesGo false t

/-- JS `String.prototype.trim`. -/
def jsTrim (l : List Char) : List Char :=
  ((l.dropWhile isJsSpace).reverse.dropWhile isJsSpace).reverse

/-- `normalizeText` from `src/analysis/textUtils.ts`: `\r\n → \n`,
collapse space/tab runs, trim. -/
def normalizeText (l : List Char) : List Char :=
  jsTrim (collapseSpacesGo false (replaceAll '\r' ['\n'] ['\n'] l))

/-- Sentence-final punctuation of `splitSentences`. -/
def isSentPunct (c : Char) : Bool :=
  c = '。' || c = '！' || c = '？' || c = '!' || c = '?' || c = '；' || c = ';'

/-- The split on `/(?<=[。！？!?；;])\s*/g`: a segment ends at each
sentence-final punctuation mark (kept), the following whitespace run
belongs to the delimiter.  `skip` records that we are inside such a
whitespace run. -/
def sentSplitGo (acc : List Char) (skip : Bool) :
    List Char → List (List Char)
  | [] => [acc.reverse]
  | c :: t =>
    if skip && isJsSpace c then sentSplitGo acc true t
    else if isSentPunct c then (c :: acc).reverse :: sentSplitGo [] true t
    else sentSplitGo (c :: acc) false t

/-- `splitSentences` from `src/analysis/textUtils.ts`. -/
def splitSentences (input : List Char) : List (List Char) :=
  let text := normalizeText input
  if text = [] then []
  else ((sentSplitGo [] false text).map jsTrim).filter fun s => s ≠ []

/-- `tokens.slice(i, i + n).join("_")`. -/
def joinUnderscore : List (List Char) → List Char
  | [] => []
  | [t] => t
  | t :: rest => t ++ '_' :: joinUnderscore rest

/-- All `n`-grams (joined with `_`), left to right. -/
def slidingJoin (n : ℕ) : List (List Char) → List (List Char)
  | [] => []
  | t :: ts =>
    if (t :: ts).length < n then []
    else joinUnderscore ((t :: ts).take n) :: slidingJoin n ts

/-- `ngramRepeatRatio` from `src/analysis/textUtils.ts`. -/
def ngramRepeatRatio (tokens : List (List Char)) (n : ℕ) : ℚ :=
  if tokens.length < n + 2 then 0
  else
    let grams := slidingJoin n tokens
    let total := grams.length
    let uniq := grams.dedup.length
    if total = 0 then 0
    else clampQ (((total : ℚ) - (uniq : ℚ)) / (total : ℚ)) 0 1

/-- Worker counting non-overlapping occurrences of `p :: ps` (the global
count of the escaped-literal regex in `countOccurrences`). -/
def countOccGo (p : Char) (ps : List Char) : ℕ → List Char → ℕ
  | _, [] => 0
  | k + 1, _ :: t => countOccGo p ps k t
  | 0, c :: t =>
    if isPre (p :: ps) (c :: t) then 1 + countOccGo p ps ps.length t
    else countOccGo p ps 0 t

def countOcc (p : Char) (ps l : List Char) : ℕ := countOccGo p ps 0 l

/-- `countOccurrences` from `src/analysis/textUtils.ts` (total count over
a needle list; empty needles are skipped; the `hits` array is
presentation-only and not modelled). -/
def countOccurrences (needles : List (List Char)) (text : List Char) : ℕ :=
  (needles.map fun n =>
    match n with
    | [] => 0
    | p :: ps => countOcc p ps text).sum

/-- `text.slice(-n)`. -/
def takeLast (n : ℕ) (l : List Char) : List Char := l.drop (l.length - n)

/-- Does any needle occur as a prefix (`trimmed.startsWith(c)`)? -/
def startsWithAny (needles : List (List Char)) (s : List Char) : Bool :=
  needles.any fun n => isPre n s

/-- Does `pat` occur as a substring (`text.includes(pat)`)? -/
def containsSub (pat text : List Char) : Bool :=
  match pat with
  | [] => true
  | p :: ps => hasSubstr p ps text

/-- The feature record of `extractFeatures` (`src/analysis/features.ts`),
restricted to the fields the detector rules read; the `*Hits` lists,
`sentenceLenMean`, `numberTokenCount`, `cognitiveMarkerCount` and the
matched-fragment strings feed only evidence text and are not modelled. -/
structure ParagraphFeatures where
  charCount : ℕ
  sentenceCount : ℕ
  sentenceLenVariance : ℚ
  tokenCount : ℕ
  tokenUniqueRatio : ℚ
  bigramRepeatRatio : ℚ
  trigramRepeatRatio : ℚ
  templatePhraseCount : ℕ
  connectiveCount : ℕ
  strongClaimCount : ℕ
  abstractNounCount : ℕ
  pronounCount : ℕ
  hasCitationMarker : Bool
  citationMarkerCount : ℕ
  aiOpeningMatch : Bool
  symmetricMatch : Bool
  hollowConclusionMatch : Bool
  cognitiveMarkerDensity : ℚ
  sentenceLenEntropy : ℚ
  connectiveAtHeadRatio : ℚ
  internalStructureShifts : ℕ
deriving DecidableEq, Repr

/-- External inputs of the analysis that are not part of the sources:
the `nodejieba` tokenizer (`tokenizeZh` wholesale), the lexicon lists
and the three regex-pattern families of the absent `lexicons.ts`, the
citation-marker regexes, and binary64 `Math.log2`. -/
structure AnalysisEnv where
  tokenizeZh : List Char → List (List Char)
  templatePhrases : List (List Char)
  connectives : List (List Char)
  strongClaimWords : List (List Char)
  abstractNouns : List (List Char)
  pronouns : List (List Char)
  cognitiveMarkers : List (List Char)
  aiOpeningTest : List Char → Bool
  symmetricTest : List Char → Bool
  hollowTest : List Char → Bool
  hasCitationMarkerTest : List Char → Bool
  citationMarkerCountOf : List Char → ℕ
  log2 : ℚ → ℚ

/-- `TURN_WORDS` from `extractFeatures`. -/
def turnWords : List (List Char) :=
  ["但是", "然而", "不过", "可是", "尽管", "虽然", "但", "却"].map
    String.toList

/-- `SUMM_WORDS` from `extractFeatures`. -/
def summWords : List (List Char) :=
  ["因此", "所以", "由此可见", "综上", "总之", "可见", "总的来说",
    "换言之"].map String.toList

inductive SentRole where
  | statement
  | turn
  | concl
deriving DecidableEq, Repr

/-- `classifySentence` from `extractFeatures`. -/
def classifySentence (s : List Char) : SentRole :=
  let h := jsTrim s
  if startsWithAny turnWords h then .turn
  else if startsWithAny summWords h then .concl
  else .statement

/-- Count of adjacent role changes. -/
def countShifts : SentRole → List SentRole → ℕ
  | _, [] => 0
  | prev, r :: rest => (if r ≠ prev then 1 else 0) + countShifts r rest

/-- `internalStructureShifts` of `extractFeatures`. -/
def internalShiftsOf (sentences : List (List Char)) : ℕ :=
  match sentences.map classifySentence with
  | [] => 0
  | r0 :: rest => countShifts r0 rest

/-- `extractFeatures` from `src/analysis/features.ts` (the fields the
detector reads; see `ParagraphFeatures`). -/
def extractFeatures (env : AnalysisEnv) (text : List Char) :
    ParagraphFeatures :=
  let charCount := text.length
  let sentences := splitSentences text
  let sentenceLens : List ℚ := sentences.map fun s => (s.length : ℚ)
  let tokens := env.tokenizeZh text
  let tokenCount := tokens.length
  let uniq := tokens.dedup.length
  let connectiveCount := countOccurrences env.connectives text
  let cogCount := countOccurrences env.cognitiveMarkers text
  let totalLen := sentenceLens.sum
  let entropy : ℚ :=
    if 2 ≤ sentences.length then
      if 0 < totalLen then
        (sentenceLens.map fun ln =>
          if 0 < ln / totalLen then -(ln / totalLen * env.log2 (ln / totalLen))
          else 0).sum
      else 0
    else 0
  let connectivesAtHead :=
    (sentences.filter fun s => startsWithAny env.connectives (jsTrim s)).length
  { charCount := charCount
    sentenceCount := sentences.length
    sentenceLenVariance := variance sentenceLens
    tokenCount := tokenCount
    tokenUniqueRatio :=
      if tokenCount = 0 then 0 else clampQ ((uniq : ℚ) / tokenCount) 0 1
    bigramRepeatRatio := ngramRepeatRatio tokens 2
    trigramRepeatRatio := ngramRepeatRatio tokens 3
    templatePhraseCount := countOccurrences env.templatePhrases text
    connectiveCount := connectiveCount
    strongClaimCount := countOccurrences env.strongClaimWords text
    abstractNounCount := countOccurrences env.abstractNouns text
    pronounCount := countOccurrences env.pronouns text
    hasCitationMarker := env.hasCitationMarkerTest text
    citationMarkerCount := env.citationMarkerCountOf text
    aiOpeningMatch := env.aiOpeningTest ((jsTrim text).take 40)
    symmetricMatch := env.symmetricTest text
    hollowConclusionMatch := env.hollowTest (takeLast 80 (jsTrim text))
    cognitiveMarkerDensity :=
      if 0 < charCount then (cogCount : ℚ) / (charCount : ℚ) * 1000 else 0
    sentenceLenEntropy := entropy
    connectiveAtHeadRatio :=
      if 0 < connectiveCount then
        (connectivesAtHead : ℚ) / (connectiveCount : ℚ)
      else 0
    internalStructureShifts := internalShiftsOf sentences }

/-! ### Detector (src/analysis/detector.ts) -/

inductive RiskLevel where
  | low
  | medium
  | high
deriving DecidableEq, Repr

/-- `riskLevel` from `src/analysis/detector.ts`. -/
def riskLevel (score : ℤ) : RiskLevel :=
  if 70 ≤ score then .high else if 35 ≤ score then .medium else .low

inductive CategoryId where
  | languageStats
  | styleHabits
  | logicCoherence
  | verifiability
  | structureFormat
  | aiPattern
  | cognitiveFeatures
deriving DecidableEq, Repr

/-- A detection signal (`FindingSignal` of `src/report/schema.ts`); the
`title`, `evidence` and `suggestion` presentation strings are not
modelled. -/
structure FindingSignal where
  signalId : String
  category : CategoryId
  score : ℤ
deriving DecidableEq, Repr

/-- `jaccard` from `src/analysis/detector.ts`. -/
def jaccard (a b : Finset (List Char)) : ℚ :=
  if a.card = 0 ∨ b.card = 0 then 0
  else
    let inter := (a ∩ b).card
    let union := a.card + b.card - inter
    if union = 0 then 0 else (inter : ℚ) / (union : ℚ)

/-- `synergyBonus` from `src/analysis/detector.ts`. -/
def synergyBonus (signals : List FindingSignal) : ℤ :=
  let n := signals.length
  let categories := (signals.map FindingSignal.category).dedup.length
  let bonus : ℤ :=
    if 5 ≤ n then 25 else if 4 ≤ n then 18 else if 3 ≤ n then 10 else 0
  if 3 ≤ categories then bonus + 8 else bonus

/-- Detection input: `Pick<DocxParagraph, "id" | "index" | "kind" |
"text">`; the id string `"p-<n>"` is modelled by its numeric part. -/
structure AnalysisBlock where
  id : ℕ
  index : ℕ
  kind : DocxParagraphKind
  text : List Char
deriving DecidableEq, Repr

/-- The connective set of `detectStructuralIsomorphism`. -/
def isoConnSet : List (List Char) :=
  ["首先", "其次", "再次", "最后", "此外", "同时", "另外"].map
    String.toList

/-- The per-paragraph count of distinct iso-connectives present. -/
def isoConnCount (text : List Char) : ℕ :=
  (isoConnSet.filter fun w => containsSub w text).length

/-- The sliding-window loop of `detectStructuralIsomorphism`: for every
3 consecutive paragraphs sharing a 2-char trimmed prefix, or each
containing at least 2 of the connective set, all three indices are
marked. -/
def isoGo : List (List Char × ℕ) → Finset ℕ
  | (a, ia) :: (b, ib) :: (c, ic) :: rest =>
    let s := isoGo ((b, ib) :: (c, ic) :: rest)
    let pa := (jsTrim a).take 2
    if pa = (jsTrim b).take 2 ∧ (jsTrim b).take 2 = (jsTrim c).take 2 ∧
        2 ≤ pa.length then
      insert ia (insert ib (insert ic s))
    else if 2 ≤ isoConnCount a ∧ 2 ≤ isoConnCount b ∧
        2 ≤ isoConnCount c then
      insert ia (insert ib (insert ic s))
    else s
  | _ => ∅

/-- `detectStructuralIsomorphism` from `src/analysis/detector.ts`
(`isoGo` is empty for fewer than 3 paragraphs, matching the guard). -/
def detectStructuralIsomorphism (paragraphs : List (List Char × ℕ)) :
    Finset ℕ := isoGo paragraphs

/-- The `/^(首先|其次|再次|最后)[，,、]/` test of the `struct_list_like`
rule (all four alternatives are 2 characters long). -/
def listLikeOpen (t : List Char) : Bool :=
  (isPre "首先".toList t || isPre "其次".toList t ||
    isPre "再次".toList t || isPre "最后".toList t) &&
  (match t.drop 2 with
    | c :: _ => c = '，' || c = ',' || c = '、'
    | [] => false)

/-- `connPer100` of the `style_connectives_dense` rule. -/
def connPer100 (f : ParagraphFeatures) : ℚ :=
  if f.charCount = 0 then 0
  else (f.connectiveCount : ℚ) / (f.charCount : ℚ) * 100

/-- `claimRatio` of the verifiability rules. -/
def claimRatio (f : ParagraphFeatures) : ℚ :=
  if 0 < f.sentenceCount then
    (f.strongClaimCount : ℚ) / (f.sentenceCount : ℚ)
  else 0

/-- The guard of the first verifiability rule (its negation guards the
`else if` branch). -/
def veriStrong (f : ParagraphFeatures) : Prop :=
  claimRatio f > 3 / 10 ∧ f.citationMarkerCount ≤ 1

instance (f : ParagraphFeatures) : Decidable (veriStrong f) := by
  unfold veriStrong; infer_instance

/-- The ordered rule table of `detectAigcRisk`: one `(fires?, signal)`
pair per rule, in source order.  `signalsOf` keeps the fired ones. -/
def ruleSignals (iso : Finset ℕ) (simPrev simNext : ℚ)
    (p : AnalysisBlock) (f : ParagraphFeatures) :
    List (Bool × FindingSignal) :=
  [(decide (2 ≤ f.sentenceCount ∧ f.sentenceLenVariance < 35 ∧
      60 ≤ f.charCount),
    ⟨"lang_uniform_sentence", .languageStats, 15⟩),
   (decide (f.bigramRepeatRatio > 6 / 100 ∨ f.trigramRepeatRatio > 3 / 100),
    ⟨"lang_ngram_repeat", .languageStats, 16⟩),
   (decide (15 ≤ f.tokenCount ∧ f.tokenUniqueRatio < 55 / 100),
    ⟨"lang_low_diversity", .languageStats, 12⟩),
   (decide (1 ≤ f.templatePhraseCount),
    ⟨"style_template_phrases", .styleHabits, 18⟩),
   (decide (2 ≤ f.connectiveCount ∧ 8 / 10 ≤ connPer100 f),
    ⟨"style_connectives_dense", .styleHabits, 14⟩),
   (decide (2 ≤ f.abstractNounCount ∧ 40 ≤ f.charCount),
    ⟨"style_abstract_dense", .styleHabits, 12⟩),
   (decide (3 ≤ f.pronounCount ∧ 40 ≤ f.charCount),
    ⟨"logic_pronoun_dense", .logicCoherence, 10⟩),
   (decide (50 ≤ f.charCount ∧ min simPrev simNext < 8 / 100),
    ⟨"logic_topic_shift", .logicCoherence, 12⟩),
   (decide (veriStrong f),
    ⟨"veri_strong_claim_no_cite", .verifiability, 18⟩),
   (decide (¬veriStrong f ∧ 1 ≤ f.strongClaimCount ∧
      f.hasCitationMarker = false),
    ⟨"veri_claim_no_cite_weak", .verifiability, 12⟩),
   (decide (3 ≤ f.strongClaimCount ∧ f.citationMarkerCount ≤ 1),
    ⟨"veri_cite_imbalance", .verifiability, 16⟩),
   (listLikeOpen (jsTrim p.text) && decide (2 ≤ f.connectiveCount),
    ⟨"struct_list_like", .structureFormat, 12⟩),
   (f.aiOpeningMatch, ⟨"ai_opening_pattern", .aiPattern, 14⟩),
   (f.symmetricMatch, ⟨"ai_symmetric_structure", .aiPattern, 10⟩),
   (f.hollowConclusionMatch, ⟨"ai_hollow_conclusion", .aiPattern, 12⟩),
   (decide (200 ≤ f.charCount ∧ f.sentenceLenVariance < 40 ∧
      f.tokenUniqueRatio < 50 / 100),
    ⟨"ai_long_homogeneous", .aiPattern, 10⟩),
   (decide (80 ≤ f.charCount ∧ f.cognitiveMarkerDensity < 15 / 10),
    ⟨"cog_low_density", .cognitiveFeatures, 14⟩),
   (decide (3 ≤ f.sentenceCount ∧ f.sentenceLenEntropy < 22 / 10),
    ⟨"cog_low_entropy", .cognitiveFeatures, 12⟩),
   (decide (2 ≤ f.connectiveCount ∧ 9 / 10 ≤ f.connectiveAtHeadRatio),
    ⟨"cog_connective_head_only", .cognitiveFeatures, 10⟩),
   (decide (4 ≤ f.sentenceCount ∧ f.internalStructureShifts = 0),
    ⟨"cog_flat_structure", .cognitiveFeatures, 10⟩),
   (decide (p.index ∈ iso),
    ⟨"ai_structural_isomorphism", .aiPattern, 12⟩)]

/-- Keep the fired signals, in rule order. -/
def signalsOf (pairs : List (Bool × FindingSignal)) : List FindingSignal :=
  pairs.filterMap fun pr => if pr.1 then some pr.2 else none

/-- The weak-adjacency (topic-shift) signal. -/
def topicShiftSignal : FindingSignal :=
  ⟨"logic_topic_shift", CategoryId.logicCoherence, 12⟩

structure ParagraphReport where
  paragraphId : ℕ
  index : ℕ
  kind : DocxParagraphKind
  text : List Char
  riskScore : ℤ
  riskLevel : RiskLevel
  signals : List FindingSignal
deriving DecidableEq, Repr

structure DocumentReport where
  generatedAt : ℕ
  overallRiskScore : ℤ
  overallRiskLevel : RiskLevel
  paragraphReports : List ParagraphReport
  limitations : List String
deriving DecidableEq, Repr

/-- The fixed `limitations` strings of the report. -/
def limitationTexts : List String :=
  ["该检测是「风险提示」而非定性证据：高分不等于一定使用了AI，低分也不等于一定未使用AI。",
   "模板化学术写作、反复润色、母语非中文写作等场景可能导致误报；深度人工改写也可能导致漏报。",
   "本工具不会联网核验事实与引用真伪；请对关键结论、数据与引用来源做人工复核。"]

/-- `signals.reduce((a, s) => a + s.score, 0)`. -/
def sumScores (signals : List FindingSignal) : ℤ :=
  (signals.map FindingSignal.score).sum

/-- The paragraph score: `clamp(baseScore + bonus, 0, 100)`. -/
def paragraphRiskScore (signals : List FindingSignal) : ℤ :=
  clampZ (sumScores signals + synergyBonus signals) 0 100

/-- The per-paragraph token set
`new Set(tokenizeZh(p.text).filter(t => t.length > 1))`. -/
def tokenSetOf (env : AnalysisEnv) (text : List Char) :
    Finset (List Char) :=
  ((env.tokenizeZh text).filter fun t => 1 < t.length).toFinset

/-- The body of the `paragraphs.map` in `detectAigcRisk`: features, the
two neighbour similarities (a missing neighbour counts as 1), the fired
signals, and the clamped score with its tier. -/
def paragraphReportOf (env : AnalysisEnv) (iso : Finset ℕ)
    (perParaTokens : List (Finset (List Char))) (i : ℕ)
    (p : AnalysisBlock) : ParagraphReport :=
  let f := extractFeatures env p.text
  let cur := (perParaTokens.get? i).getD ∅
  let simPrev : ℚ :=
    match (if 0 < i then perParaTokens.get? (i - 1) else none) with
    | some prev => jaccard prev cur
    | none => 1
  let simNext : ℚ :=
    match (if i + 1 < perParaTokens.length then perParaTokens.get? (i + 1)
      else none) with
    | some next => jaccard cur next
    | none => 1
  let signals := signalsOf (ruleSignals iso simPrev simNext p f)
  let score := paragraphRiskScore signals
  ⟨p.id, p.index, p.kind, p.text, score, riskLevel score, signals⟩

/-- One step of the document aggregation loop: the accumulator is
`(aiCharCount, totalCharCount)`; every paragraph adds its length to the
total, and paragraphs with `riskScore ≥ 35` add
`len × riskScore / 100` to the AI char count. -/
def aggStep (acc : ℚ × ℕ) (r : ParagraphReport) : ℚ × ℕ :=
  (acc.1 + (if 35 ≤ r.riskScore then
      (r.text.length : ℚ) * (r.riskScore : ℚ) / 100
    else 0),
    acc.2 + r.text.length)

/-- The document-level score of `detectAigcRisk`:
`clamp(round(aiCharCount / totalCharCount * 100), 0, 100)` when the
total length is positive, otherwise 0. -/
def overallOf (R : List ParagraphReport) : ℤ :=
  if 0 < (R.foldl aggStep (0, 0)).2 then
    clampZ (jsRound ((R.foldl aggStep (0, 0)).1 /
      (((R.foldl aggStep (0, 0)).2 : ℕ) : ℚ) * 100)) 0 100
  else 0

/-- `detectAigcRisk` from `src/analysis/detector.ts`.  `now` is the
ambient clock read by `Date.now()` for the `generatedAt` field. -/
def detectAigcRisk (env : AnalysisEnv) (now : ℕ)
    (paragraphs : List AnalysisBlock) : DocumentReport :=
  let perParaTokens := paragraphs.map fun p => tokenSetOf env p.text
  let iso := detectStructuralIsomorphism
    (paragraphs.map fun p => (p.text, p.index))
  let paragraphReports := paragraphs.enum.map fun pr =>
    paragraphReportOf env iso perParaTokens pr.1 pr.2
  ⟨now, overallOf paragraphReports, riskLevel (overallOf paragraphReports),
    paragraphReports, limitationTexts⟩

/-- Modelled from the claim wording of C1: the document score formula
`round(100 × Σ(len(p) × p.score/100 over p with score ≥ 35) / Σ len(p))`
clamped to `[0, 100]`, and 0 when the total length is 0. -/
def specDocumentScore (reports : List ParagraphReport) : ℤ :=
  let total : ℕ := (reports.map fun r => r.text.length).sum
  if total = 0 then 0
  else
    clampZ (jsRound (100 *
      ((reports.filter fun r => 35 ≤ r.riskScore).map fun r =>
        (r.text.length : ℚ) * (r.riskScore : ℚ) / 100).sum /
      (total : ℚ))) 0 100

/-- An environment with trivial external inputs (used for concrete
evaluations). -/
def trivialEnv : AnalysisEnv :=
  { tokenizeZh := fun _ => []
    templatePhrases := []
    connectives := []
    strongClaimWords := []
    abstractNouns := []
    pronouns := []
    cognitiveMarkers := []
    aiOpeningTest := fun _ => false
    symmetricTest := fun _ => false
    hollowTest := fun _ => false
    hasCitationMarkerTest := fun _ => false
    citationMarkerCountOf := fun _ => 0
    log2 := fun _ => 0 }

/-! ## Theorems -/

theorem cmap_append (g : Char → List Char) (a b : List Char) :
    cmap g (a ++ b) = cmap g a ++ cmap g b := by
  induction a with
  | nil => rfl
  | cons c t ih => simp [cmap, ih]

theorem cmap_congr {g h : Char → List Char} (hgh : ∀ c, g c = h c)
    (l : List Char) : cmap g l = cmap h l := by
  induction l with
  | nil => rfl
  | cons c t ih => simp [cmap, ih, hgh]

theorem cmap_cmap (g h : Char → List Char) (l : List Char) :
    cmap g (cmap h l) = cmap (fun c => cmap g (h c)) l := by
  induction l with
  | nil => rfl
  | cons c t ih => simp [cmap, cmap_append, ih]

theorem cmap_id (l : List Char) : cmap (fun c => [c]) l = l := by
  induction l with
  | nil => rfl
  | cons c t ih => simp [cmap, ih]

theorem replaceAll_cons_ne {p : Char} {c : Char} (ps rep t : List Char)
    (h : c ≠ p) :
    replaceAll p ps rep (c :: t) = c :: replaceAll p ps rep t := by
  unfold replaceAll
  rw [replaceAllGo]
  simp [isPre, h.symm]

theorem replaceAll_single (p : Char) (rep : List Char) (l : List Char) :
    replaceAll p [] rep l = cmap (fun c => if c = p then rep else [c]) l := by
  induction l with
  | nil => rfl
  | cons c t ih =>
    by_cases h : c = p
    · subst h
      unfold replaceAll at ih ⊢
      rw [replaceAllGo]
      simp [isPre, cmap, ih]
    · rw [replaceAll_cons_ne _ _ _ h, ih]
      simp [cmap, h]

theorem encode_stage1 (l : List Char) :
    replaceAll '&' [] ampEnt l = cmap encStage1 l := by
  rw [replaceAll_single]
  exact cmap_congr (fun c => rfl) l

theorem encode_stage2 (l : List Char) :
    replaceAll '<' [] ltEnt (cmap encStage1 l) = cmap encStage2 l := by
  rw [replaceAll_single, cmap_cmap]
  refine cmap_congr (fun c => ?_) l
  by_cases h1 : c = '&'
  · subst h1; rfl
  · by_cases h2 : c = '<' <;> simp [encStage1, encStage2, h1, h2, cmap]

theorem encode_stage3 (l : List Char) :
    replaceAll '>' [] gtEnt (cmap encStage2 l) = cmap encStage3 l := by
  rw [replaceAll_single, cmap_cmap]
  refine cmap_congr (fun c => ?_) l
  by_cases h1 : c = '&'
  · subst h1; rfl
  · by_cases h2 : c = '<'
    · subst h2; rfl
    · by_cases h3 : c = '>' <;>
        simp [encStage2, encStage3, h1, h2, h3, cmap]

theorem encode_stage4 (l : List Char) :
    replaceAll '"' [] quotEnt (cmap encStage3 l) = cmap encStage4 l := by
  rw [replaceAll_single, cmap_cmap]
  refine cmap_congr (fun c => ?_) l
  by_cases h1 : c = '&'
  · subst h1; rfl
  · by_cases h2 : c = '<'
    · subst h2; rfl
    · by_cases h3 : c = '>'
      · subst h3; rfl
      · by_cases h4 : c = '"' <;>
          simp [encStage3, encStage4, h1, h2, h3, h4, cmap]

theorem encode_stage5 (l : List Char) :
    replaceAll '\'' [] aposEnt (cmap encStage4 l) = cmap encChar l := by
  rw [replaceAll_single, cmap_cmap]
  refine cmap_congr (fun c => ?_) l
  by_cases h1 : c = '&'
  · subst h1; rfl
  · by_cases h2 : c = '<'
    · subst h2; rfl
    · by_cases h3 : c = '>'
      · subst h3; rfl
      · by_cases h4 : c = '"'
        · subst h4; rfl
        · by_cases h5 : c = '\'' <;>
            simp [encStage4, encChar, h1, h2, h3, h4, h5, cmap]

theorem encode_eq_cmap (l : List Char) :
    encodeXmlText l = cmap encChar l := by
  unfold encodeXmlText
  rw [encode_stage1, encode_stage2, encode_stage3, encode_stage4,
    encode_stage5]

section DecodeBlocks

variable (X : List Char)

theorem raPass1Amp :
    replaceAll '&' ['l', 't', ';'] ['<'] (ampEnt ++ X)
      = ampEnt ++ replaceAll '&' ['l', 't', ';'] ['<'] X := rfl

theorem raMatch1Lt :
    replaceAll '&' ['l', 't', ';'] ['<'] (ltEnt ++ X)
      = ['<'] ++ replaceAll '&' ['l', 't', ';'] ['<'] X := rfl

theorem raPass1Gt :
    replaceAll '&' ['l', 't', ';'] ['<'] (gtEnt ++ X)
      = gtEnt ++ replaceAll '&' ['l', 't', ';'] ['<'] X := rfl

theorem raPass1Quot :
    replaceAll '&' ['l', 't', ';'] ['<'] (quotEnt ++ X)
      = quotEnt ++ replaceAll '&' ['l', 't', ';'] ['<'] X := rfl

theorem raPass1Apos :
    replaceAll '&' ['l', 't', ';'] ['<'] (aposEnt ++ X)
      = aposEnt ++ replaceAll '&' ['l', 't', ';'] ['<'] X := rfl

theorem raPass2Amp :
    replaceAll '&' ['g', 't', ';'] ['>'] (ampEnt ++ X)
      = ampEnt ++ replaceAll '&' ['g', 't', ';'] ['>'] X := rfl

theorem raMatch2Gt :
    replaceAll '&' ['g', 't', ';'] ['>'] (gtEnt ++ X)
      = ['>'] ++ replaceAll '&' ['g', 't', ';'] ['>'] X := rfl

theorem raPass2Quot :
    replaceAll '&' ['g', 't', ';'] ['>'] (quotEnt ++ X)
      = quotEnt ++ replaceAll '&' ['g', 't', ';'] ['>'] X := rfl

theorem raPass2Apos :
    replaceAll '&' ['g', 't', ';'] ['>'] (aposEnt ++ X)
      = aposEnt ++ replaceAll '&' ['g', 't', ';'] ['>'] X := rfl

theorem raPass3Amp :
    replaceAll '&' ['q', 'u', 'o', 't', ';'] ['"'] (ampEnt ++ X)
      = ampEnt ++ replaceAll '&' ['q', 'u', 'o', 't', ';'] ['"'] X := rfl

theorem raMatch3Quot :
    replaceAll '&' ['q', 'u', 'o', 't', ';'] ['"'] (quotEnt ++ X)
      = ['"'] ++ replaceAll '&' ['q', 'u', 'o', 't', ';'] ['"'] X := rfl

theorem raPass3Apos :
    replaceAll '&' ['q', 'u', 'o', 't', ';'] ['"'] (aposEnt ++ X)
      = aposEnt ++ replaceAll '&' ['q', 'u', 'o', 't', ';'] ['"'] X := rfl

theorem raPass4Amp :
    replaceAll '&' ['a', 'p', 'o', 's', ';'] ['\''] (ampEnt ++ X)
      = ampEnt ++ replaceAll '&' ['a', 'p', 'o', 's', ';'] ['\''] X := rfl

theorem raMatch4Apos :
    replaceAll '&' ['a', 'p', 'o', 's', ';'] ['\''] (aposEnt ++ X)
      = ['\''] ++ replaceAll '&' ['a', 'p', 'o', 's', ';'] ['\''] X := rfl

theorem raMatch5Amp :
    replaceAll '&' ['a', 'm', 'p', ';'] ['&'] (ampEnt ++ X)
      = ['&'] ++ replaceAll '&' ['a', 'm', 'p', ';'] ['&'] X := rfl

end DecodeBlocks

theorem decode_stage1 (l : List Char) :
    replaceAll '&' ['l', 't', ';'] ['<'] (cmap encChar l)
      = cmap decStage1 l := by
  induction l with
  | nil => rfl
  | cons c t ih =>
    by_cases h1 : c = '&'
    · subst h1
      show replaceAll '&' ['l', 't', ';'] ['<'] (ampEnt ++ cmap encChar t)
        = ampEnt ++ cmap decStage1 t
      rw [raPass1Amp, ih]
    · by_cases h2 : c = '<'
      · subst h2
        show replaceAll '&' ['l', 't', ';'] ['<'] (ltEnt ++ cmap encChar t)
          = ['<'] ++ cmap decStage1 t
        rw [raMatch1Lt, ih]
      · by_cases h3 : c = '>'
        · subst h3
          show replaceAll '&' ['l', 't', ';'] ['<'] (gtEnt ++ cmap encChar t)
            = gtEnt ++ cmap decStage1 t
          rw [raPass1Gt, ih]
        · by_cases h4 : c = '"'
          · subst h4
            show replaceAll '&' ['l', 't', ';'] ['<']
                (quotEnt ++ cmap encChar t)
              = quotEnt ++ cmap decStage1 t
            rw [raPass1Quot, ih]
          · by_cases h5 : c = '\''
            · subst h5
              show replaceAll '&' ['l', 't', ';'] ['<']
                  (aposEnt ++ cmap encChar t)
                = aposEnt ++ cmap decStage1 t
              rw [raPass1Apos, ih]
            · have hc : encChar c = [c] := by
                simp [encChar, h1, h2, h3, h4, h5]
              have hd : decStage1 c = [c] := by
                simp [decStage1, h1, h2, h3, h4, h5]
              show replaceAll '&' ['l', 't', ';'] ['<']
                  (encChar c ++ cmap encChar t)
                = decStage1 c ++ cmap decStage1 t
              rw [hc, hd]
              rw [List.singleton_append, replaceAll_cons_ne _ _ _ h1, ih]
              rfl

theorem decStage1_self {c : Char} (h1 : c ≠ '&') (h3 : c ≠ '>')
    (h4 : c ≠ '"') (h5 : c ≠ '\'') : decStage1 c = [c] := by
  unfold decStage1
  rw [if_neg h1, if_neg h3, if_neg h4, if_neg h5]
  split_ifs with h2
  · subst h2; rfl
  · rfl

theorem decStage2_self {c : Char} (h1 : c ≠ '&') (h4 : c ≠ '"')
    (h5 : c ≠ '\'') : decStage2 c = [c] := by
  unfold decStage2
  rw [if_neg h1, if_neg h4, if_neg h5]
  split_ifs with h2 h3
  · subst h2; rfl
  · subst h3; rfl
  · rfl

theorem decStage3_self {c : Char} (h1 : c ≠ '&') (h5 : c ≠ '\'') :
    decStage3 c = [c] := by
  unfold decStage3
  rw [if_neg h1, if_neg h5]
  split_ifs with h2 h3 h4
  · subst h2; rfl
  · subst h3; rfl
  · subst h4; rfl
  · rfl

theorem decStage4_self {c : Char} (h1 : c ≠ '&') : decStage4 c = [c] := by
  unfold decStage4
  rw [if_neg h1]
  split_ifs with h2 h3 h4 h5
  · subst h2; rfl
  · subst h3; rfl
  · subst h4; rfl
  · subst h5; rfl
  · rfl

theorem decode_stage2 (l : List Char) :
    replaceAll '&' ['g', 't', ';'] ['>'] (cmap decStage1 l)
      = cmap decStage2 l := by
  induction l with
  | nil => rfl
  | cons c t ih =>
    by_cases h1 : c = '&'
    · subst h1
      show replaceAll '&' ['g', 't', ';'] ['>'] (ampEnt ++ cmap decStage1 t)
        = ampEnt ++ cmap decStage2 t
      rw [raPass2Amp, ih]
    · by_cases h3 : c = '>'
      · subst h3
        show replaceAll '&' ['g', 't', ';'] ['>'] (gtEnt ++ cmap decStage1 t)
          = ['>'] ++ cmap decStage2 t
        rw [raMatch2Gt, ih]
      · by_cases h4 : c = '"'
        · subst h4
          show replaceAll '&' ['g', 't', ';'] ['>']
              (quotEnt ++ cmap decStage1 t)
            = quotEnt ++ cmap decStage2 t
          rw [raPass2Quot, ih]
        · by_cases h5 : c = '\''
          · subst h5
            show replaceAll '&' ['g', 't', ';'] ['>']
                (aposEnt ++ cmap decStage1 t)
              = aposEnt ++ cmap decStage2 t
            rw [raPass2Apos, ih]
          · have hc : decStage1 c = [c] := decStage1_self h1 h3 h4 h5
            have hd : decStage2 c = [c] := decStage2_self h1 h4 h5
            show replaceAll '&' ['g', 't', ';'] ['>']
                (decStage1 c ++ cmap decStage1 t)
              = decStage2 c ++ cmap decStage2 t
            rw [hc, hd, List.singleton_append,
              replaceAll_cons_ne _ _ _ h1, ih]
            rfl

theorem decode_stage3 (l : List Char) :
    replaceAll '&' ['q', 'u', 'o', 't', ';'] ['"'] (cmap decStage2 l)
      = cmap decStage3 l := by
  induction l with
  | nil => rfl
  | cons c t ih =>
    by_cases h1 : c = '&'
    · subst h1
      show replaceAll '&' ['q', 'u', 'o', 't', ';'] ['"']
          (ampEnt ++ cmap decStage2 t)
        = ampEnt ++ cmap decStage3 t
      rw [raPass3Amp, ih]
    · by_cases h4 : c = '"'
      · subst h4
        show replaceAll '&' ['q', 'u', 'o', 't', ';'] ['"']
            (quotEnt ++ cmap decStage2 t)
          = ['"'] ++ cmap decStage3 t
        rw [raMatch3Quot, ih]
      · by_cases h5 : c = '\''
        · subst h5
          show replaceAll '&' ['q', 'u', 'o', 't', ';'] ['"']
              (aposEnt ++ cmap decStage2 t)
            = aposEnt ++ cmap decStage3 t
          rw [raPass3Apos, ih]
        · have hc : decStage2 c = [c] := decStage2_self h1 h4 h5
          have hd : decStage3 c = [c] := decStage3_self h1 h5
          show replaceAll '&' ['q', 'u', 'o', 't', ';'] ['"']
              (decStage2 c ++ cmap decStage2 t)
            = decStage3 c ++ cmap decStage3 t
          rw [hc, hd, List.singleton_append,
            replaceAll_cons_ne _ _ _ h1, ih]
          rfl

theorem decode_stage4 (l : List Char) :
    replaceAll '&' ['a', 'p', 'o', 's', ';'] ['\''] (cmap decStage3 l)
      = cmap decStage4 l := by
  induction l with
  | nil => rfl
  | cons c t ih =>
    by_cases h1 : c = '&'
    · subst h1
      show replaceAll '&' ['a', 'p', 'o', 's', ';'] ['\'']
          (ampEnt ++ cmap decStage3 t)
        = ampEnt ++ cmap decStage4 t
      rw [raPass4Amp, ih]
    · by_cases h5 : c = '\''
      · subst h5
        show replaceAll '&' ['a', 'p', 'o', 's', ';'] ['\'']
            (aposEnt ++ cmap decStage3 t)
          = ['\''] ++ cmap decStage4 t
        rw [raMatch4Apos, ih]
      · have hc : decStage3 c = [c] := decStage3_self h1 h5
        have hd : decStage4 c = [c] := decStage4_self h1
        show replaceAll '&' ['a', 'p', 'o', 's', ';'] ['\'']
            (decStage3 c ++ cmap decStage3 t)
          = decStage4 c ++ cmap decStage4 t
        rw [hc, hd, List.singleton_append,
          replaceAll_cons_ne _ _ _ h1, ih]
        rfl

theorem decode_stage5 (l : List Char) :
    replaceAll '&' ['a', 'm', 'p', ';'] ['&'] (cmap decStage4 l) = l := by
  induction l with
  | nil => rfl
  | cons c t ih =>
    by_cases h1 : c = '&'
    · subst h1
      show replaceAll '&' ['a', 'm', 'p', ';'] ['&']
          (ampEnt ++ cmap decStage4 t)
        = '&' :: t
      rw [raMatch5Amp, ih]
      rfl
    · have hc : decStage4 c = [c] := decStage4_self h1
      show replaceAll '&' ['a', 'm', 'p', ';'] ['&']
          (decStage4 c ++ cmap decStage4 t)
        = c :: t
      rw [hc, List.singleton_append, replaceAll_cons_ne _ _ _ h1, ih]

/-- C3: for every string (in particular every string containing any
combination of the five reserved characters `& < > " '`),
`decodeXmlText (encodeXmlText s) = s`: the encoder over the five XML
entities is exactly inverted by the decoder in this direction. -/
theorem c3_escaping_inverse (s : List Char) :
    decodeXmlText (encodeXmlText s) = s := by
  unfold decodeXmlText
  rw [encode_eq_cmap, decode_stage1, decode_stage2, decode_stage3,
    decode_stage4, decode_stage5]

theorem isPre_eq_append : ∀ {pat l : List Char}, isPre pat l = true →
    l = pat ++ l.drop pat.length := by
  intro pat
  induction pat with
  | nil => intro l _; simp
  | cons p ps ih =>
    intro l h
    cases l with
    | nil => simp [isPre] at h
    | cons c t =>
      rw [isPre] at h
      by_cases hpc : p = c
      · subst hpc
        rw [if_pos rfl] at h
        have := ih h
        simpa [List.drop_succ_cons] using this
      · rw [if_neg hpc] at h
        exact absurd h (by simp)

theorem findSplit_spec {p : Char} {ps : List Char} :
    ∀ {l a b : List Char}, findSplit p ps l = some (a, b) →
      l = a ++ (p :: ps) ++ b := by
  intro l
  induction l with
  | nil => intro a b h; simp [findSplit] at h
  | cons c t ih =>
    intro a b h
    rw [findSplit] at h
    by_cases hp : isPre (p :: ps) (c :: t) = true
    · rw [if_pos hp] at h
      have h2 := isPre_eq_append hp
      simp only [Option.some.injEq, Prod.mk.injEq] at h
      obtain ⟨h1, h3⟩ := h
      subst h1; subst h3
      simpa [List.drop_succ_cons] using h2
    · rw [if_neg hp] at h
      cases hfs : findSplit p ps t with
      | none => rw [hfs] at h; simp at h
      | some pr =>
        obtain ⟨a2, b2⟩ := pr
        rw [hfs] at h
        simp at h
        obtain ⟨h1, h3⟩ := h
        subst h1; subst h3
        have := ih hfs
        rw [this]
        simp

theorem findParaOpen_spec :
    ∀ {l pre suf : List Char}, findParaOpen l = some (pre, suf) →
      l = pre ++ suf ∧ paraStart suf = true := by
  intro l
  induction l with
  | nil => intro pre suf h; simp [findParaOpen] at h
  | cons c t ih =>
    intro pre suf h
    rw [findParaOpen] at h
    by_cases hps : paraStart (c :: t) = true
    · rw [if_pos hps] at h
      simp only [Option.some.injEq, Prod.mk.injEq] at h
      obtain ⟨h1, h3⟩ := h
      subst h1; subst h3
      exact ⟨rfl, hps⟩
    · rw [if_neg hps] at h
      cases hfo : findParaOpen t with
      | none => rw [hfo] at h; simp at h
      | some pr =>
        obtain ⟨a, b⟩ := pr
        rw [hfo] at h
        simp at h
        obtain ⟨h1, h3⟩ := h
        subst h1; subst h3
        obtain ⟨h1, h2⟩ := ih hfo
        exact ⟨by rw [h1]; rfl, h2⟩

theorem findPara_spec {l pre para rest : List Char}
    (h : findPara l = some (pre, para, rest)) :
    l = pre ++ para ++ rest ∧ 10 ≤ para.length := by
  unfold findPara at h
  split at h
  · simp at h
  · rename_i pre2 suf hfo
    split at h
    · simp at h
    · rename_i body rest2 hfs
      simp only [Option.some.injEq, Prod.mk.injEq] at h
      obtain ⟨h1, h2, h3⟩ := h
      subst h1; subst h2; subst h3
      obtain ⟨hl, hps⟩ := findParaOpen_spec hfo
      have h4 : isPre wpOpen suf = true := by
        simp only [paraStart, Bool.and_eq_true] at hps
        exact hps.1
      have hsuf : suf = wpOpen ++ suf.drop 4 := isPre_eq_append h4
      have hdrop : suf.drop 4 = body ++ ('<' :: ['/', 'w', ':', 'p', '>'])
          ++ rest2 := findSplit_spec hfs
      constructor
      · rw [hl, hsuf, hdrop]
        simp [wpClose, wpOpen]
      · simp [wpClose, wpOpen]

theorem joinParts_append (a b : List DocumentXmlPart) :
    joinParts (a ++ b) = joinParts a ++ joinParts b := by
  induction a with
  | nil => rfl
  | cons part t ih => cases part <;> simp [joinParts, ih]

theorem splitGo_join :
    ∀ (fuel : ℕ) (l : List Char) (i d : ℕ), l.length < fuel →
      joinParts (splitGo fuel l i d) = l := by
  intro fuel
  induction fuel with
  | zero => intro l i d h; omega
  | succ fuel ih =>
    intro l i d h
    rw [splitGo]
    cases hfp : findPara l with
    | none =>
      by_cases hl : l = [] <;> simp [hl, joinParts]
    | some tup =>
      obtain ⟨pre, para, rest⟩ := tup
      obtain ⟨hl, hlen⟩ := findPara_spec hfp
      have hrest : rest.length < fuel := by
        rw [hl] at h
        simp at h
        omega
      by_cases hpre : pre = []
      · simp only [hpre, if_pos rfl, List.nil_append]
        simp only [joinParts]
        rw [ih rest (i + 1) _ hrest, hl, hpre]
        rfl
      · simp only [if_neg hpre]
        rw [joinParts_append]
        simp only [joinParts]
        rw [ih rest (i + 1) _ hrest, hl]
        simp

theorem applyReplacements_nil (parts : List DocumentXmlPart) :
    applyReplacements [] parts = parts := by
  induction parts with
  | nil => rfl
  | cons part t ih =>
    cases part with
    | chunk x => simp [applyReplacements] at ih ⊢; exact ih
    | paragraph p => simp [applyReplacements, lookupRepl] at ih ⊢; exact ih

/-- C4: patching with an empty replacement map is the identity on the
document text stream: splitting `document.xml` into alternating
chunk/paragraph parts and concatenating them back in order (which is
what `patchDocxParagraphs` does when no block id in the map matches)
reproduces the original string byte for byte. -/
theorem c4_empty_patch_identity (xml : List Char) :
    joinParts (splitDocumentXmlIntoParts xml) = xml ∧
      patchDocxParagraphs xml [] = xml := by
  have hj : joinParts (splitDocumentXmlIntoParts xml) = xml :=
    splitGo_join (xml.length + 1) xml 0 0 (by omega)
  refine ⟨hj, ?_⟩
  unfold patchDocxParagraphs
  rw [applyReplacements_nil]
  exact hj

theorem splitGo_kind_fold :
    ∀ (fuel : ℕ) (l : List Char) (i d : ℕ) (j : ℕ) (p : DocxParagraph),
      (paragraphsOf (splitGo fuel l i d)).get? j = some p →
      (p.kind = DocxParagraphKind.tableCellParagraph ↔
        0 < List.foldl updateTableCellDepth d
          (segsBeforePara (splitGo fuel l i d) j)) := by
  intro fuel
  induction fuel with
  | zero => intro l i d j p h; simp [splitGo, paragraphsOf] at h
  | succ fuel ih =>
    intro l i d j p h
    cases hfp : findPara l with
    | none =>
      rw [splitGo, hfp] at h
      by_cases hl : l = [] <;> simp [hl, paragraphsOf] at h
    | some tup =>
      obtain ⟨pre, para, rest⟩ := tup
      rw [splitGo, hfp] at h ⊢
      by_cases hpre : pre = []
      · simp only [hpre, if_pos rfl, List.nil_append] at h ⊢
        cases j with
        | zero =>
          simp only [paragraphsOf, List.filterMap_cons, List.get?] at h
          simp only [Option.some.injEq] at h
          subst h
          simp only [segsBeforePara, List.foldl_nil]
          split_ifs with hd <;> simp_all
        | succ j =>
          simp only [paragraphsOf, List.filterMap_cons, List.get?] at h
          simp only [segsBeforePara, List.foldl_cons]
          exact ih rest (i + 1) _ j p h
      · simp only [if_neg hpre, List.cons_append, List.nil_append,
          List.singleton_append] at h ⊢
        cases j with
        | zero =>
          simp only [paragraphsOf, List.filterMap_cons, List.get?] at h
          simp only [Option.some.injEq] at h
          subst h
          simp only [segsBeforePara, List.foldl_cons, List.foldl_nil]
          split_ifs with hd <;> simp_all
        | succ j =>
          simp only [paragraphsOf, List.filterMap_cons, List.get?] at h
          simp only [segsBeforePara, List.foldl_cons]
          exact ih rest (i + 1) _ j p h

/-- C6 (amended): every block is classified as a table-cell block exactly
when the nesting counter is positive at the block's start, where the
counter is updated per scanned segment (inter-block chunk or block
fragment) by counting all `<w:tc` open tags of the segment before
subtracting its `</w:tc>` close tags (each decrement floored at 0) —
not by processing the tags in document order. -/
theorem c6_amended_kind_classification (xml : List Char) (j : ℕ)
    (p : DocxParagraph)
    (h : (paragraphsOf (splitDocumentXmlIntoParts xml)).get? j = some p) :
    p.kind = DocxParagraphKind.tableCellParagraph ↔
      0 < List.foldl updateTableCellDepth 0
        (segsBeforePara (splitDocumentXmlIntoParts xml) j) :=
  splitGo_kind_fold (xml.length + 1) xml 0 0 j p h

/-- C6 witness: on a concrete document with a paragraph inside a table
cell, the classification theorem applies and yields `tableCellParagraph`. -/
theorem c6_amended_kind_classification_witness :
    ∃ p : DocxParagraph,
      (paragraphsOf (splitDocumentXmlIntoParts tcWitnessDoc)).get? 0 =
          some p ∧
        p.kind = DocxParagraphKind.tableCellParagraph := by
  refine ⟨⟨0, 0, DocxParagraphKind.tableCellParagraph, [],
    "<w:p></w:p>".toList⟩, by decide, ?_⟩
  exact (c6_amended_kind_classification tcWitnessDoc 0 _ (by decide)).mpr
    (by decide)

/-- C6 counterexample: in `tcOrderDoc` the chunk before the only block is
`x</w:tc><w:tc>y`.  The code counts the open tag before applying the
floored decrement and classifies the block as a plain paragraph, while
the counter processed in document order (floored decrement first, then
the increment) is positive at the block start — so the claim's
document-order description contradicts the code's classification. -/
theorem c6_doc_order_counterexample :
    (paragraphsOf (splitDocumentXmlIntoParts tcOrderDoc)).map
        DocxParagraph.kind = [DocxParagraphKind.paragraph] ∧
      0 < List.foldl docOrderTableCellDepth 0
        (segsBeforePara (splitDocumentXmlIntoParts tcOrderDoc) 0) := by
  constructor
  · decide
  · decide

/-! ### Detector theorems -/

/-- C9: detection is a total function (it is defined for every block
list and cannot throw, by construction), and on the empty block list it
returns the report with `overallRiskScore = 0`, `overallRiskLevel = low`
and no paragraph reports. -/
theorem c9_empty_input_report (env : AnalysisEnv) (now : ℕ) :
    detectAigcRisk env now [] =
      ⟨now, 0, RiskLevel.low, [], limitationTexts⟩ := rfl

/-- The paragraph reports of a detection run (definitional reading). -/
theorem detect_reports (env : AnalysisEnv) (now : ℕ)
    (ps : List AnalysisBlock) :
    (detectAigcRisk env now ps).paragraphReports =
      ps.enum.map fun pr =>
        paragraphReportOf env
          (detectStructuralIsomorphism (ps.map fun p => (p.text, p.index)))
          (ps.map fun p => tokenSetOf env p.text) pr.1 pr.2 := rfl

/-- C7 (amended): `detectAigcRisk` is a pure function of its block list
except for the `generatedAt` timestamp: two runs on the same blocks at
any two clock readings agree on `overallRiskScore`, `overallRiskLevel`,
`paragraphReports` and `limitations`. -/
theorem c7_deterministic_except_generatedAt (env : AnalysisEnv)
    (t1 t2 : ℕ) (ps : List AnalysisBlock) :
    (detectAigcRisk env t1 ps).overallRiskScore =
        (detectAigcRisk env t2 ps).overallRiskScore ∧
      (detectAigcRisk env t1 ps).overallRiskLevel =
        (detectAigcRisk env t2 ps).overallRiskLevel ∧
      (detectAigcRisk env t1 ps).paragraphReports =
        (detectAigcRisk env t2 ps).paragraphReports ∧
      (detectAigcRisk env t1 ps).limitations =
        (detectAigcRisk env t2 ps).limitations :=
  ⟨rfl, rfl, rfl, rfl⟩

/-- C7 counterexample: two runs on the same (empty) block list at two
different clock readings do not produce identical `DocumentReport`s —
`generatedAt` is `Date.now()`, an ambient input. -/
theorem c7_ambient_clock_counterexample :
    detectAigcRisk trivialEnv 0 [] ≠ detectAigcRisk trivialEnv 1 [] := by
  intro h
  have h2 := congrArg DocumentReport.generatedAt h
  simp [detectAigcRisk] at h2

/-- C2: every paragraph report carries
`riskScore = clamp(Σ signal.score + synergyBonus, 0, 100)` with the
35/70 risk tiers; the synergy bonus is 25/18/10/0 by signal count plus 8
for ≥ 3 distinct categories; and the score is an order-independent
(hence pure set-level) function of the signal list. -/
theorem c2_paragraph_score_contract (env : AnalysisEnv) (now : ℕ)
    (ps : List AnalysisBlock) (r : ParagraphReport)
    (hr : r ∈ (detectAigcRisk env now ps).paragraphReports)
    (l1 l2 : List FindingSignal) (hperm : l1.Perm l2) :
    (r.riskScore = clampZ (sumScores r.signals + synergyBonus r.signals)
        0 100 ∧
      r.riskLevel = riskLevel r.riskScore) ∧
    synergyBonus r.signals =
      (if 5 ≤ r.signals.length then 25
        else if 4 ≤ r.signals.length then 18
        else if 3 ≤ r.signals.length then 10 else (0 : ℤ)) +
      (if 3 ≤ (r.signals.map FindingSignal.category).dedup.length then 8
        else 0) ∧
    paragraphRiskScore l1 = paragraphRiskScore l2 := by
  refine ⟨?_, ?_, ?_⟩
  · rw [detect_reports] at hr
    obtain ⟨pr, _, rfl⟩ := List.mem_map.1 hr
    exact ⟨rfl, rfl⟩
  · simp only [synergyBonus]
    split_ifs <;> omega
  · have hs : sumScores l1 = sumScores l2 := by
      unfold sumScores
      exact (hperm.map _).sum_eq
    have hb : synergyBonus l1 = synergyBonus l2 := by
      unfold synergyBonus
      rw [hperm.length_eq,
        ((hperm.map FindingSignal.category).dedup).length_eq]
    unfold paragraphRiskScore
    rw [hs, hb]

/-- C2 witness: the contract applied to the single report of a concrete
run. -/
theorem c2_paragraph_score_contract_witness :
    ∃ r ∈ (detectAigcRisk trivialEnv 0
        [⟨0, 0, DocxParagraphKind.paragraph, []⟩]).paragraphReports,
      r.riskScore = clampZ (sumScores r.signals + synergyBonus r.signals)
          0 100 ∧
        paragraphRiskScore [] = paragraphRiskScore [] := by
  refine ⟨_, List.mem_singleton.2 rfl, ?_⟩
  have h := c2_paragraph_score_contract trivialEnv 0
    [⟨0, 0, DocxParagraphKind.paragraph, []⟩] _
    (List.mem_singleton.2 rfl) [] [] (List.Perm.refl [])
  exact ⟨h.1.1, h.2.2⟩

/-- C8: adding a signal with non-negative score never decreases the
paragraph risk score. -/
theorem c8_score_monotone (s : FindingSignal) (l : List FindingSignal)
    (h : 0 ≤ s.score) :
    paragraphRiskScore l ≤ paragraphRiskScore (s :: l) := by
  have hsum : sumScores l ≤ sumScores (s :: l) := by
    unfold sumScores
    simp only [List.map_cons, List.sum_cons]
    omega
  have hbonus : synergyBonus l ≤ synergyBonus (s :: l) := by
    unfold synergyBonus
    have hcat : (l.map FindingSignal.category).dedup.length ≤
        ((s :: l).map FindingSignal.category).dedup.length := by
      simp only [List.map_cons]
      by_cases hm : s.category ∈ l.map FindingSignal.category
      · rw [List.dedup_cons_of_mem hm]
      · rw [List.dedup_cons_of_not_mem hm]
        simp
    simp only [List.length_cons]
    split_ifs <;> omega
  unfold paragraphRiskScore clampZ
  omega

/-- C8 witness. -/
theorem c8_score_monotone_witness :
    paragraphRiskScore [] ≤
      paragraphRiskScore [⟨"sig", CategoryId.aiPattern, 0⟩] :=
  c8_score_monotone ⟨"sig", CategoryId.aiPattern, 0⟩ [] (by decide)

theorem aggStep_foldl (R : List ParagraphReport) :
    ∀ (a : ℚ) (b : ℕ),
      R.foldl aggStep (a, b) =
        (a + ((R.filter fun r => 35 ≤ r.riskScore).map fun r =>
            (r.text.length : ℚ) * (r.riskScore : ℚ) / 100).sum,
          b + (R.map fun r => r.text.length).sum) := by
  induction R with
  | nil => intro a b; simp
  | cons r t ih =>
    intro a b
    rw [List.foldl_cons]
    have hstep : aggStep (a, b) r =
        (a + (if 35 ≤ r.riskScore then
            (r.text.length : ℚ) * (r.riskScore : ℚ) / 100
          else 0), b + r.text.length) := rfl
    rw [hstep, ih]
    by_cases h35 : 35 ≤ r.riskScore
    · rw [if_pos h35, List.filter_cons, if_pos (by simpa using h35)]
      simp only [List.map_cons, List.sum_cons, Prod.mk.injEq]
      exact ⟨by ring, by omega⟩
    · rw [if_neg h35, List.filter_cons, if_neg (by simpa using h35)]
      simp only [List.map_cons, List.sum_cons, Prod.mk.injEq]
      exact ⟨by ring, by omega⟩

theorem overallOf_eq_spec (R : List ParagraphReport) :
    overallOf R = specDocumentScore R := by
  simp only [overallOf, specDocumentScore]
  rw [aggStep_foldl R 0 0]
  dsimp only
  simp only [zero_add]
  by_cases h : (R.map fun r => r.text.length).sum = 0
  · rw [if_neg (by omega), if_pos h]
  · rw [if_pos (by omega), if_neg h]
    have harg :
        ((R.filter fun r => 35 ≤ r.riskScore).map fun r =>
            (r.text.length : ℚ) * (r.riskScore : ℚ) / 100).sum /
          (((R.map fun r => r.text.length).sum : ℕ) : ℚ) * 100 =
        100 * ((R.filter fun r => 35 ≤ r.riskScore).map fun r =>
            (r.text.length : ℚ) * (r.riskScore : ℚ) / 100).sum /
          (((R.map fun r => r.text.length).sum : ℕ) : ℚ) := by
      ring
    rw [harg]

theorem overallOf_bounds (R : List ParagraphReport) :
    0 ≤ overallOf R ∧ overallOf R ≤ 100 := by
  unfold overallOf clampZ
  split_ifs <;> constructor <;> omega

theorem overallOf_zero_of_all_below (R : List ParagraphReport)
    (h : ∀ r ∈ R, r.riskScore < 35) : overallOf R = 0 := by
  rw [overallOf_eq_spec]
  simp only [specDocumentScore]
  by_cases ht : (R.map fun r => r.text.length).sum = 0
  · rw [if_pos ht]
  · rw [if_neg ht]
    have hfil : R.filter (fun r => 35 ≤ r.riskScore) = [] := by
      rw [List.filter_eq_nil_iff]
      intro r hr
      have hr35 := h r hr
      simp only [decide_eq_true_eq]
      omega
    rw [hfil]
    simp only [List.map_nil, List.sum_nil, mul_zero, zero_div]
    have hjr : jsRound 0 = 0 := by
      unfold jsRound
      norm_num
    rw [hjr]
    rfl

/-- C1: the document-level `overallRiskScore` of `detectAigcRisk` equals
`round(100 × Σ(len(p) × p.score/100 over p with score ≥ 35) / Σ len(p))`
clamped to `[0, 100]` (0 when the total length is 0); it always lies in
`[0, 100]`, is 0 when every paragraph scores below 35 or the total
length is 0, and the document risk tier is derived from it with the same
35/70 thresholds. -/
theorem c1_document_aggregation (env : AnalysisEnv) (now : ℕ)
    (ps : List AnalysisBlock) :
    ((detectAigcRisk env now ps).overallRiskScore =
        specDocumentScore (detectAigcRisk env now ps).paragraphReports) ∧
      (0 ≤ (detectAigcRisk env now ps).overallRiskScore ∧
        (detectAigcRisk env now ps).overallRiskScore ≤ 100) ∧
      (((detectAigcRisk env now ps).paragraphReports.map fun r =>
          r.text.length).sum = 0 →
        (detectAigcRisk env now ps).overallRiskScore = 0) ∧
      ((∀ r ∈ (detectAigcRisk env now ps).paragraphReports,
          r.riskScore < 35) →
        (detectAigcRisk env now ps).overallRiskScore = 0) ∧
      (detectAigcRisk env now ps).overallRiskLevel =
        riskLevel (detectAigcRisk env now ps).overallRiskScore := by
  have hscore : (detectAigcRisk env now ps).overallRiskScore =
      overallOf (detectAigcRisk env now ps).paragraphReports := rfl
  refine ⟨?_, ?_, ?_, ?_, ?_⟩
  · rw [hscore, overallOf_eq_spec]
  · rw [hscore]
    exact overallOf_bounds _
  · intro h0
    rw [hscore]
    unfold overallOf
    rw [aggStep_foldl _ 0 0]
    dsimp only
    rw [if_neg (by omega)]
  · intro hb
    rw [hscore]
    exact overallOf_zero_of_all_below _ hb
  · rfl

/-- C1 witness: the aggregation theorem applied to a concrete run. -/
theorem c1_document_aggregation_witness :
    (detectAigcRisk trivialEnv 0 []).overallRiskScore = 0 :=
  (c1_document_aggregation trivialEnv 0 []).2.2.1 rfl

theorem topic_shift_fires (iso : Finset ℕ) (simPrev simNext : ℚ)
    (p : AnalysisBlock) (f : ParagraphFeatures)
    (h1 : 50 ≤ f.charCount) (h2 : min simPrev simNext < 8 / 100) :
    topicShiftSignal ∈ signalsOf (ruleSignals iso simPrev simNext p f) := by
  unfold signalsOf
  refine List.mem_filterMap.2
    ⟨(decide (50 ≤ f.charCount ∧ min simPrev simNext < 8 / 100),
      topicShiftSignal), ?_, ?_⟩
  · unfold ruleSignals topicShiftSignal
    simp
  · exact if_pos (decide_eq_true ⟨h1, h2⟩)

theorem topic_shift_not_fires (iso : Finset ℕ) (simPrev simNext : ℚ)
    (p : AnalysisBlock) (f : ParagraphFeatures)
    (h2 : ¬min simPrev simNext < 8 / 100) :
    topicShiftSignal ∉ signalsOf (ruleSignals iso simPrev simNext p f) := by
  intro hmem
  obtain ⟨⟨b, s⟩, hin, hif⟩ := List.mem_filterMap.1 hmem
  cases b with
  | false => simp at hif
  | true =>
    simp only [if_pos] at hif
    have hs : s = topicShiftSignal := by simpa using hif
    subst hs
    unfold ruleSignals topicShiftSignal at hin
    simp at hin
    rw [min_lt_iff] at h2
    exact h2 hin.2

/-- The signals of one paragraph report (definitional reading of
`paragraphReportOf`). -/
theorem paragraphReportOf_signals (env : AnalysisEnv) (iso : Finset ℕ)
    (toks : List (Finset (List Char))) (i : ℕ) (p : AnalysisBlock) :
    (paragraphReportOf env iso toks i p).signals =
      signalsOf (ruleSignals iso
        (match (if 0 < i then toks.get? (i - 1) else none) with
          | some prev => jaccard prev ((toks.get? i).getD ∅)
          | none => 1)
        (match (if i + 1 < toks.length then toks.get? (i + 1) else none) with
          | some next => jaccard ((toks.get? i).getD ∅) next
          | none => 1)
        p (extractFeatures env p.text)) := rfl

/-- C10: `jaccard` returns 0 whenever either token set is empty; hence a
paragraph of at least 50 characters whose two present neighbours both
tokenize to empty sets has minimum neighbour similarity 0 and receives
the weak-adjacency (topic-shift) signal, whereas a truly missing
neighbour at a document edge counts as similarity 1, so a single-block
document never receives the signal. -/
theorem c10_jaccard_empty_topic_shift (a b : Finset (List Char))
    (hab : a.card = 0 ∨ b.card = 0) (env : AnalysisEnv) (now : ℕ)
    (ps : List AnalysisBlock) (i : ℕ) (p q1 q2 : AnalysisBlock)
    (hp : ps.get? i = some p) (hq1 : ps.get? (i - 1) = some q1)
    (hq2 : ps.get? (i + 1) = some q2) (hlen : 50 ≤ p.text.length)
    (hi : 0 < i) (he1 : tokenSetOf env q1.text = ∅)
    (he2 : tokenSetOf env q2.text = ∅) (b1 : AnalysisBlock) :
    jaccard a b = 0 ∧
      (∃ r, (detectAigcRisk env now ps).paragraphReports.get? i = some r ∧
        topicShiftSignal ∈ r.signals) ∧
      ∀ r ∈ (detectAigcRisk env now [b1]).paragraphReports,
        topicShiftSignal ∉ r.signals := by
  have hlen2 : i + 1 < ps.length := by
    by_contra hc
    rw [List.get?_eq_none.2 (by omega)] at hq2
    exact Option.noConfusion hq2
  refine ⟨?_, ?_, ?_⟩
  · unfold jaccard
    rw [if_pos hab]
  · refine ⟨paragraphReportOf env
      (detectStructuralIsomorphism (ps.map fun x => (x.text, x.index)))
      (ps.map fun x => tokenSetOf env x.text) i p, ?_, ?_⟩
    · rw [detect_reports, List.get?_map, List.get?_enum, hp]
      rfl
    · rw [paragraphReportOf_signals]
      have hprev : (if 0 < i then
          (ps.map fun x => tokenSetOf env x.text).get? (i - 1)
        else none) = some ∅ := by
        rw [if_pos hi, List.get?_map, hq1]
        simp [he1]
      have hnext : (if i + 1 < (ps.map fun x => tokenSetOf env x.text).length
          then (ps.map fun x => tokenSetOf env x.text).get? (i + 1)
          else none) = some ∅ := by
        rw [if_pos (by rw [List.length_map]; exact hlen2),
          List.get?_map, hq2]
        simp [he2]
      rw [hprev, hnext]
      apply topic_shift_fires
      · exact hlen
      · have j1 : jaccard ∅
            ((((ps.map fun x => tokenSetOf env x.text).get? i)).getD ∅)
            = 0 := by simp [jaccard]
        have j2 : jaccard
            ((((ps.map fun x => tokenSetOf env x.text).get? i)).getD ∅) ∅
            = 0 := by simp [jaccard]
        dsimp only
        rw [j1, j2]
        norm_num
  · intro r hr
    rw [detect_reports] at hr
    obtain ⟨pr, hpr, rfl⟩ := List.mem_map.1 hr
    have hpr2 : pr = (0, b1) := by
      simpa using hpr
    subst hpr2
    rw [paragraphReportOf_signals]
    apply topic_shift_not_fires
    norm_num

/-- C10 witness: a concrete 3-block document whose middle block has 50
characters and empty-tokenizing neighbours. -/
theorem c10_jaccard_empty_topic_shift_witness :
    jaccard ∅ ∅ = 0 ∧
      (∃ r, (detectAigcRisk trivialEnv 0
            [⟨0, 0, DocxParagraphKind.paragraph, []⟩,
              ⟨1, 1, DocxParagraphKind.paragraph, List.replicate 50 'x'⟩,
              ⟨2, 2, DocxParagraphKind.paragraph, []⟩]).paragraphReports.get?
            1 = some r ∧
        topicShiftSignal ∈ r.signals) ∧
      ∀ r ∈ (detectAigcRisk trivialEnv 0
          [⟨0, 0, DocxParagraphKind.paragraph, []⟩]).paragraphReports,
        topicShiftSignal ∉ r.signals :=
  c10_jaccard_empty_topic_shift ∅ ∅ (Or.inl Finset.card_empty)
    trivialEnv 0
    [⟨0, 0, DocxParagraphKind.paragraph, []⟩,
      ⟨1, 1, DocxParagraphKind.paragraph, List.replicate 50 'x'⟩,
      ⟨2, 2, DocxParagraphKind.paragraph, []⟩]
    1 ⟨1, 1, DocxParagraphKind.paragraph, List.replicate 50 'x'⟩
    ⟨0, 0, DocxParagraphKind.paragraph, []⟩
    ⟨2, 2, DocxParagraphKind.paragraph, []⟩
    rfl rfl rfl (by simp) (by decide) rfl rfl
    ⟨0, 0, DocxParagraphKind.paragraph, []⟩

/-- C5 (code bug, failing input `c5Doc` with replacement map `c5Repl`):
before patching the document has blocks `p-0` with text `ab` and `p-1`
with text `c`; the map touches only `p-0`; yet re-extracting the
patched stream yields three blocks with texts `NEW`, `""`, `c` — the
id `p-1` now denotes a block whose extracted text changed from `c` to
the empty string, because the JS `String.replace` template expansion of
a dollar-apostrophe sequence inside a `<w:t>` attribute injects the
paragraph close tag into the rewritten fragment. -/
theorem c5_replacement_isolation_code_bug :
    ((paragraphsOf (splitDocumentXmlIntoParts c5Doc)).map fun q =>
        (q.id, q.text)) = [(0, "ab".toList), (1, "c".toList)] ∧
      lookupRepl c5Repl 1 = none ∧
      ((paragraphsOf (splitDocumentXmlIntoParts c5Patched)).map fun q =>
        (q.id, q.text)) =
        [(0, "NEW".toList), (1, []), (2, "c".toList)] := by
  refine ⟨?_, rfl, ?_⟩
  · decide
  · decide

end Aigc
